import Mathlib

/-!
Verification of the manga-reader batch analysis / OCR pipeline.

Shallow embedding of the logic in `src/utils/ocr.ts` and
`src/components/Reader.tsx`.  Pure functions are translated directly;
the stateful reader component is modelled by explicit state passing
(caches as functions `Nat → Option _`, the in-flight sets as lists used
with set semantics).  The remote generative-AI backend is a collaborator:
its responses enter the model as explicit parameters, shaped exactly as
the code's branching distinguishes them (absent text, unparsable JSON,
non-array JSON, array payload).
-/

namespace MangaReader

/-! ## Data model: speech bubbles (src/types, used by ocr.ts and Reader.tsx)

A bubble's `box_2d` array `[ymin, xmin, ymax, xmax]` is embedded as four
named integer fields; `box_2d[0]` is `ymin` and `box_2d[1]` is `xmin`. -/

structure SpeechBubble where
  text : String
  ymin : Int
  xmin : Int
  ymax : Int
  xmax : Int
deriving DecidableEq, Repr

/-- Comparator applied at Reader.tsx lines 123-127:
`const yDiff = a.box_2d[0] - b.box_2d[0]; if (Math.abs(yDiff) > 50) return yDiff;
return b.box_2d[1] - a.box_2d[1];` -/
def bubbleCompare (a b : SpeechBubble) : Int :=
  let yDiff := a.ymin - b.ymin
  if yDiff.natAbs > 50 then yDiff else b.xmin - a.xmin

/-- Stable insertion step: `x` goes before the first element `y` with
`bubbleCompare x y ≤ 0`, matching a stable comparator sort (ES2019
`Array.prototype.sort` is stable). -/
def insertBubble (x : SpeechBubble) : List SpeechBubble → List SpeechBubble
  | [] => [x]
  | y :: ys => if bubbleCompare x y ≤ 0 then x :: y :: ys else y :: insertBubble x ys

/-- `bubbles.sort(comparator)` as a stable comparison sort. -/
def sortBubbles (l : List SpeechBubble) : List SpeechBubble :=
  l.foldr insertBubble []

/-- Example bubble with `ymin = 10`, `xmin = 300` (spec ordering scenario). -/
def bubbleEx1 : SpeechBubble := ⟨"first", 10, 300, 20, 400⟩

/-- Example bubble with `ymin = 15`, `xmin = 100` (spec ordering scenario). -/
def bubbleEx2 : SpeechBubble := ⟨"second", 15, 100, 25, 200⟩

/-- Example bubble with `ymin = 500`, `xmin = 50` (spec ordering scenario). -/
def bubbleEx3 : SpeechBubble := ⟨"third", 500, 50, 600, 150⟩

/-! ## ocr.ts: `analyzeMangaPages`

The backend response is modelled after the branches the code takes on it:
`response.text` falsy; `JSON.parse` throwing; parsed value not an array;
or an array whose entries carry an optional `bubbles` field
(`pageResult.bubbles || []`).  `networkError` covers the outer catch
(request failure). -/

inductive BubbleResponse where
  | networkError
  | noText
  | unparsable
  | nonArray
  | array (entries : List (Option (List SpeechBubble)))
deriving DecidableEq, Repr

/-- `analyzeMangaPages` (ocr.ts lines 18-54): every failure shape degrades to
one empty result per input image; an array response is mapped entry-wise
through `pageResult.bubbles || []` — note the result length is the response
array's length, not the number of input images. -/
def analyzeMangaPages (nImages : Nat) (resp : BubbleResponse) : List (List SpeechBubble) :=
  match resp with
  | .networkError => List.replicate nImages []
  | .noText => List.replicate nImages []
  | .unparsable => List.replicate nImages []
  | .nonArray => List.replicate nImages []
  | .array entries => entries.map (fun e => e.getD [])

/-! ## ocr.ts: markdown-fence cleaning in `performBatchedOCR`

`text.replace(/```json/gi, '').replace(/```/g, '').trim()` (line 136).
`String.replace` with a `g`-flag literal pattern removes all
non-overlapping occurrences in a single left-to-right pass; the `i` flag
makes the first pattern case-insensitive.  We model the pass over
`List Char` with a character-equality parameter. -/

/-- Does the pattern `p` match at the head of `s`, character-compared by `eqf`? -/
def matchesAt (eqf : Char → Char → Bool) : List Char → List Char → Bool
  | [], _ => true
  | _ :: _, [] => false
  | p :: ps, c :: cs => eqf p c && matchesAt eqf ps cs

/-- Single-pass global removal of pattern `p` from `s` (JS
`s.replace(pat, '')` with `g` flag): at each position, if the pattern
matches, skip it and resume after it; otherwise keep the character. -/
def stripAll (eqf : Char → Char → Bool) (p : List Char) : List Char → List Char
  | [] => []
  | c :: cs =>
    if matchesAt eqf p (c :: cs) then stripAll eqf p (cs.drop (p.length - 1))
    else c :: stripAll eqf p cs
termination_by s => s.length
decreasing_by
  · simp only [List.length_drop, List.length_cons]; omega
  · simp only [List.length_cons]; omega

/-- Case-insensitive character equality (the `i` regex flag). -/
def ciCharEq (a b : Char) : Bool := a.toLower == b.toLower

/-- Case-sensitive character equality. -/
def csCharEq (a b : Char) : Bool := a == b

/-- The pattern of `/```json/gi`. -/
def jsonFencePat : List Char := ['`', '`', '`', 'j', 's', 'o', 'n']

/-- The pattern of `/```/g`. -/
def tickPat : List Char := ['`', '`', '`']

/-- Whitespace as trimmed by JS `String.prototype.trim` (the characters
relevant here; all are ASCII whitespace). -/
def isJsWhitespace (c : Char) : Bool :=
  c == ' ' || c == '\n' || c == '\t' || c == '\r' || c == '\x0b' || c == '\x0c'

def jsTrimLeft (s : List Char) : List Char := s.dropWhile isJsWhitespace

def jsTrimRight (s : List Char) : List Char := (s.reverse.dropWhile isJsWhitespace).reverse

def jsTrim (s : List Char) : List Char := jsTrimLeft (jsTrimRight s)

/-- The cleaning applied to the raw model text before `JSON.parse`
(ocr.ts line 136), over the character list. -/
def cleanChars (s : List Char) : List Char :=
  jsTrim (stripAll csCharEq tickPat (stripAll ciCharEq jsonFencePat s))

/-- String-level wrapper of the cleaning step. -/
def cleanOCRText (s : String) : String :=
  String.mk (cleanChars s.data)

/-! ## ocr.ts: `performBatchedOCR`

The response enters as: a merge/compose failure (`mergeImagesToBase64`
throws), a request failure, absent `response.text`, or raw text.  JSON
parsing of the cleaned text is an oracle `parse`; its outcome is a parse
error, a non-array value, or an array whose entries are read through
`parsed[i] || ''` (an absent or falsy entry yields the empty string). -/

inductive ParseOutcome where
  | parseError (msg : String)
  | notArray
  | arrayVal (entries : List (Option String))
deriving DecidableEq, Repr

inductive OCRResponse where
  | mergeError (msg : String)
  | apiError (msg : String)
  | noText
  | text (raw : String)
deriving DecidableEq, Repr

/-- `performBatchedOCR` (ocr.ts lines 118-152): absent text and non-array
parses return one empty string per requested page; a parse failure throws
a descriptive error; an array yields `imageUrls.map((_, i) => parsed[i] || '')`. -/
def performBatchedOCR (nPages : Nat) (parse : String → ParseOutcome)
    (resp : OCRResponse) : Except String (List String) :=
  match resp with
  | .mergeError msg => .error msg
  | .apiError msg => .error msg
  | .noText => .ok (List.replicate nPages "")
  | .text raw =>
    match parse (cleanOCRText raw) with
    | .parseError msg =>
      .error ("JSON parse failed: " ++ msg ++ ". Raw: " ++ raw.take 100)
    | .notArray => .ok (List.replicate nPages "")
    | .arrayVal entries =>
      .ok ((List.range nPages).map (fun i => (entries.getD i none).getD ""))

/-! ## Reader.tsx: analysis cache, in-flight sets, batch scheduling

Caches are JS objects keyed by page index, modelled as `Nat → Option _`.
The in-flight `Set`s (`processingQueue`, `pendingOCRBatches`) are
modelled as lists used with set semantics (`∈` for `has`, cons for `add`
on a guarded-absent key, `setDelete` for `delete`).

Each async function is split at its suspension point: a `Begin` step
(everything up to and including issuing the remote request, returning
whether one was issued) and a `Finish` step (the completion handler plus
the `finally` clause), so that re-invocations while a request is in
flight are expressible.  The sequential composition of the two is the
whole call. -/

inductive AnalysisStatus where
  | preloaded
  | loading
  | complete
  | error
deriving DecidableEq, Repr

structure PageAnalysis where
  bubbles : List SpeechBubble
  status : AnalysisStatus
deriving DecidableEq, Repr

/-- Vision batches are 4 pages wide (`const BATCH_SIZE = 4`). -/
def BATCH_SIZE : Nat := 4

/-- `Set.prototype.delete` on the list-as-set representation. -/
def setDelete (l : List Nat) (k : Nat) : List Nat :=
  l.filter (fun x => x != k)

/-- Single cache assignment `cache[k] = v`. -/
def setPA (c : Nat → Option PageAnalysis) (k : Nat) (v : PageAnalysis) :
    Nat → Option PageAnalysis :=
  fun j => if j = k then some v else c j

/-- The guarded marking loop shared by `preloadBatch` (status `preloaded`,
lines 54-62) and `analyzeBatch` (status `loading`, lines 101-107):
`for i in [startPage, endPage): if (nextState[i]?.status !== 'complete')
nextState[i] = { bubbles: [], status: stat }`. -/
def markNonComplete (stat : AnalysisStatus) (c : Nat → Option PageAnalysis)
    (startPage endPage : Nat) : Nat → Option PageAnalysis :=
  (List.range' startPage (endPage - startPage)).foldl
    (fun acc i =>
      if (acc i).map PageAnalysis.status = some .complete then acc
      else setPA acc i ⟨[], stat⟩)
    c

/-- The failure loop of `analyzeBatch` (lines 134-140): unconditionally
`nextState[i] = { bubbles: [], status: 'error' }` over the range. -/
def markErrorRange (c : Nat → Option PageAnalysis) (startPage endPage : Nat) :
    Nat → Option PageAnalysis :=
  (List.range' startPage (endPage - startPage)).foldl
    (fun acc i => setPA acc i ⟨[], .error⟩)
    c

/-- The success handler of `analyzeBatch` (lines 119-131):
`batchResults.forEach((bubbles, relativeIndex) => { ...sort...;
nextState[startPage + relativeIndex] = { bubbles, status: 'complete' } })`. -/
def applyBatchResults (c : Nat → Option PageAnalysis) (startPage : Nat) :
    List (List SpeechBubble) → (Nat → Option PageAnalysis)
  | [] => c
  | bs :: rest =>
    applyBatchResults (setPA c startPage ⟨sortBubbles bs, .complete⟩) (startPage + 1) rest

/-- The reader state the vision-batch functions touch: `analysisCache`
and the shared in-flight set `processingQueue`. -/
structure AnalyzeState where
  analysisCache : Nat → Option PageAnalysis
  processingQueue : List Nat

/-- `analyzeBatch` up to the remote call (Reader.tsx lines 92-117): the
in-flight guard, range computation, queue insertion and the `loading`
marking pass.  The returned flag records whether the remote analyzer was
invoked. -/
def analyzeBatchBegin (numPages : Nat) (st : AnalyzeState) (batchIndex : Nat) :
    AnalyzeState × Bool :=
  if batchIndex ∈ st.processingQueue then (st, false)
  else
    let startPage := batchIndex * BATCH_SIZE
    let endPage := min (startPage + BATCH_SIZE) numPages
    ({ analysisCache := markNonComplete .loading st.analysisCache startPage endPage,
       processingQueue := batchIndex :: st.processingQueue }, true)

/-- `analyzeBatch` after the remote call resolves (lines 119-143): apply
per-page results on success, mark the attempted range `error` on failure,
and in both cases the `finally` clause deletes the key from the queue.
The `remote` value stands for the awaited
`analyzeMangaPages(base64Images)` (or a `blobUrlToBase64` rejection). -/
def analyzeBatchFinish (numPages : Nat) (st : AnalyzeState) (batchIndex : Nat)
    (remote : Except Unit (List (List SpeechBubble))) : AnalyzeState :=
  let startPage := batchIndex * BATCH_SIZE
  let endPage := min (startPage + BATCH_SIZE) numPages
  match remote with
  | .ok batchResults =>
    { analysisCache := applyBatchResults st.analysisCache startPage batchResults,
      processingQueue := setDelete st.processingQueue batchIndex }
  | .error _ =>
    { analysisCache := markErrorRange st.analysisCache startPage endPage,
      processingQueue := setDelete st.processingQueue batchIndex }

/-- A whole `analyzeBatch` call, given the remote outcome. -/
def analyzeBatch (numPages : Nat) (st : AnalyzeState) (batchIndex : Nat)
    (remote : Except Unit (List (List SpeechBubble))) : AnalyzeState × Bool :=
  let r := analyzeBatchBegin numPages st batchIndex
  if r.2 then (analyzeBatchFinish numPages r.1 batchIndex remote, true)
  else (r.1, false)

/-- `preloadBatch` up to its first suspension (Reader.tsx lines 35-62):
the shared in-flight guard, the all-images-already-preloaded early
return, queue insertion and the `preloaded` marking pass.  `preloaded i`
models `!!preloadedImages.current[i]`.  The flag records whether the
function stayed in flight (it never calls the remote analyzer). -/
def preloadBatchBegin (numPages : Nat) (preloaded : Nat → Bool) (st : AnalyzeState)
    (batchIndex : Nat) : AnalyzeState × Bool :=
  if batchIndex ∈ st.processingQueue then (st, false)
  else
    let startPage := batchIndex * BATCH_SIZE
    let endPage := min (startPage + BATCH_SIZE) numPages
    if (List.range' startPage (endPage - startPage)).all preloaded then (st, false)
    else
      ({ analysisCache := markNonComplete .preloaded st.analysisCache startPage endPage,
         processingQueue := batchIndex :: st.processingQueue }, true)

/-! ## Reader.tsx: batched OCR (`requestOCRForPage`) and the text cache -/

/-- JS truthiness of a cache read `ocrTextCache[i]`: absent (`undefined`)
and the empty string are both falsy. -/
def jsStrTruthy : Option String → Bool
  | none => false
  | some s => !s.isEmpty

/-- The reader state `requestOCRForPage` touches: `ocrTextCache` and the
in-flight set `pendingOCRBatches`. -/
structure ReaderOCRState where
  ocrTextCache : Nat → Option String
  pendingOCRBatches : List Nat

/-- The success handler's write loop (lines 226-234):
`texts.forEach((t, i) => { next[batchStart + i] = t || '' })` (for a
string `t`, `t || ''` is `t` itself, the empty string included). -/
def writeTexts (cache : Nat → Option String) (start : Nat) :
    List String → (Nat → Option String)
  | [] => cache
  | t :: rest =>
    writeTexts (fun j => if j = start then some t else cache j) (start + 1) rest

/-- `requestOCRForPage` up to the remote call (Reader.tsx lines 179-223):
the all-cached early return (a page is "cached" when its entry is truthy,
so an empty-string entry does not count), the in-flight guard, insertion
into `pendingOCRBatches`, and the `urls.length === 0` early return.  The
whole body sits inside the `try` of the `finally` at lines 239-241, and a
JS `return` inside a `try` still runs the `finally`, so EVERY early
return executes `pendingOCRBatches.current.delete(index)` — including
the all-cached return and the already-pending guard return, which
therefore deletes another call's in-flight key.  The flag records
whether `performBatchedOCR` was invoked. -/
def requestOCRBegin (numPages : Nat) (st : ReaderOCRState) (index : Nat) :
    ReaderOCRState × Bool :=
  let batchStart := index
  let batchEnd := min (batchStart + 3) numPages
  let allCached := (List.range' batchStart (batchEnd - batchStart)).all
    (fun i => jsStrTruthy (st.ocrTextCache i))
  if allCached then
    ({ st with pendingOCRBatches := setDelete st.pendingOCRBatches index }, false)
  else if batchStart ∈ st.pendingOCRBatches then
    ({ st with pendingOCRBatches := setDelete st.pendingOCRBatches index }, false)
  else
    let pending1 := batchStart :: st.pendingOCRBatches
    let urlsLen := min 3 (numPages - batchStart)
    if urlsLen = 0 then
      ({ st with pendingOCRBatches := setDelete pending1 index }, false)
    else
      ({ st with pendingOCRBatches := pending1 }, true)

/-- `requestOCRForPage` after the remote call resolves (lines 223-241):
write the returned texts at `batchStart + i` on success, leave the cache
alone on failure (the error goes to the debug slot), and in both cases
the `finally` clause deletes `index` from `pendingOCRBatches`. -/
def requestOCRFinish (st : ReaderOCRState) (index : Nat)
    (remote : Except String (List String)) : ReaderOCRState :=
  match remote with
  | .ok texts =>
    { ocrTextCache := writeTexts st.ocrTextCache index texts,
      pendingOCRBatches := setDelete st.pendingOCRBatches index }
  | .error _ =>
    { st with pendingOCRBatches := setDelete st.pendingOCRBatches index }

/-- A whole `requestOCRForPage` call, given the remote outcome. -/
def requestOCRForPage (numPages : Nat) (st : ReaderOCRState) (index : Nat)
    (remote : Except String (List String)) : ReaderOCRState × Bool :=
  let r := requestOCRBegin numPages st index
  if r.2 then (requestOCRFinish r.1 index remote, true)
  else (r.1, false)

/-- A whole `requestOCRForPage` call with the remote outcome produced by
`performBatchedOCR` over the sliced urls
(`manga.pages.slice(batchStart, batchStart + 3)` has
`min 3 (numPages - batchStart)` elements). -/
def requestOCRForPageFull (numPages : Nat) (st : ReaderOCRState) (index : Nat)
    (parse : String → ParseOutcome) (resp : OCRResponse) : ReaderOCRState × Bool :=
  requestOCRForPage numPages st index
    (performBatchedOCR (min 3 (numPages - index)) parse resp)

/-! ## Reader.tsx: narration (`speakCurrentPage`, lines 268-345)

The function is modelled by the list of utterance texts it queues.
Voice selection, rates and the highlight callbacks do not affect which
texts are spoken and are omitted. -/

def speakCurrentPage (ttsEnabled isAnalysisEnabled : Bool)
    (ocrTextCache : Nat → Option String) (analysisCache : Nat → Option PageAnalysis)
    (pageIndex : Nat) (lastSpokenPage : Option Nat) (speaking : Bool) : List String :=
  if !ttsEnabled || !isAnalysisEnabled then []
  else
    let cachedText := ocrTextCache pageIndex
    -- `if (cachedText && cachedText.trim().length > 0)`
    if jsStrTruthy cachedText && !((cachedText.getD "").trim.isEmpty) then
      if lastSpokenPage == some pageIndex && speaking then []
      else [cachedText.getD ""]
    else
      -- fallback to bubble-based TTS
      match analysisCache pageIndex with
      | none => []
      | some pd =>
        if pd.status != .complete then []
        else if pd.bubbles.isEmpty then []
        else if lastSpokenPage == some pageIndex && speaking then []
        else pd.bubbles.map (fun b => b.text)

/-! ## Shared helper lemmas -/

lemma not_mem_setDelete_self (l : List Nat) (k : Nat) : k ∉ setDelete l k := by
  simp [setDelete, List.mem_filter]

lemma analyzeBatchBegin_of_mem (numPages : Nat) (st : AnalyzeState) (k : Nat)
    (h : k ∈ st.processingQueue) : analyzeBatchBegin numPages st k = (st, false) := by
  simp [analyzeBatchBegin, h]

lemma analyzeBatchBegin_true_elim (numPages : Nat) (st st1 : AnalyzeState) (k : Nat)
    (h : analyzeBatchBegin numPages st k = (st1, true)) :
    k ∉ st.processingQueue ∧
    st1 = { analysisCache := markNonComplete .loading st.analysisCache (k * BATCH_SIZE)
              (min (k * BATCH_SIZE + BATCH_SIZE) numPages),
            processingQueue := k :: st.processingQueue } := by
  by_cases hk : k ∈ st.processingQueue
  · rw [analyzeBatchBegin_of_mem numPages st k hk] at h
    exact absurd (congrArg Prod.snd h) (by simp)
  · refine ⟨hk, ?_⟩
    simp only [analyzeBatchBegin, if_neg hk] at h
    exact (congrArg Prod.fst h).symm

lemma preloadBatchBegin_of_mem (numPages : Nat) (preloaded : Nat → Bool)
    (st : AnalyzeState) (k : Nat) (h : k ∈ st.processingQueue) :
    preloadBatchBegin numPages preloaded st k = (st, false) := by
  simp [preloadBatchBegin, h]

lemma requestOCRBegin_of_mem (numPages : Nat) (st : ReaderOCRState) (k : Nat)
    (h : k ∈ st.pendingOCRBatches) :
    requestOCRBegin numPages st k =
      (⟨st.ocrTextCache, setDelete st.pendingOCRBatches k⟩, false) := by
  simp only [requestOCRBegin]
  split <;> simp [h]

lemma requestOCRBegin_true_elim (numPages : Nat) (st st1 : ReaderOCRState) (k : Nat)
    (h : requestOCRBegin numPages st k = (st1, true)) :
    k ∉ st.pendingOCRBatches ∧
    st1 = { st with pendingOCRBatches := k :: st.pendingOCRBatches } := by
  simp only [requestOCRBegin] at h
  split at h
  · exact absurd (congrArg Prod.snd h) (by simp)
  · split at h
    · exact absurd (congrArg Prod.snd h) (by simp)
    · split at h
      · exact absurd (congrArg Prod.snd h) (by simp)
      · rename_i hnc hnp hlen
        exact ⟨hnp, (congrArg Prod.fst h).symm⟩

lemma markFold_preserve_complete (stat : AnalysisStatus) :
    ∀ (l : List Nat) (c : Nat → Option PageAnalysis) (i : Nat),
      (c i).map PageAnalysis.status = some .complete →
      (l.foldl (fun acc j =>
        if (acc j).map PageAnalysis.status = some .complete then acc
        else setPA acc j ⟨[], stat⟩) c) i = c i := by
  intro l
  induction l with
  | nil => intro c i _; rfl
  | cons j l ih =>
    intro c i hc
    simp only [List.foldl_cons]
    by_cases hj : (c j).map PageAnalysis.status = some AnalysisStatus.complete
    · rw [if_pos hj]; exact ih c i hc
    · rw [if_neg hj]
      have hij : i ≠ j := fun he => hj (he ▸ hc)
      have hpt : setPA c j ⟨[], stat⟩ i = c i := by simp [setPA, hij]
      rw [ih (setPA c j ⟨[], stat⟩) i (hpt ▸ hc), hpt]

lemma markNonComplete_preserve_complete (stat : AnalysisStatus)
    (c : Nat → Option PageAnalysis) (s e i : Nat)
    (hc : (c i).map PageAnalysis.status = some .complete) :
    markNonComplete stat c s e i = c i :=
  markFold_preserve_complete stat (List.range' s (e - s)) c i hc

lemma errorFold_outside :
    ∀ (l : List Nat) (c : Nat → Option PageAnalysis) (i : Nat),
      (∀ j ∈ l, j ≠ i) →
      (l.foldl (fun acc j => setPA acc j ⟨[], .error⟩) c) i = c i := by
  intro l
  induction l with
  | nil => intro c i _; rfl
  | cons j l ih =>
    intro c i hl
    simp only [List.foldl_cons]
    rw [ih _ i (fun j hj => hl j (List.mem_cons_of_mem _ hj))]
    simp [setPA, (hl j (List.mem_cons_self _ _)).symm]

lemma errorFold_mem :
    ∀ (l : List Nat) (c : Nat → Option PageAnalysis) (i : Nat), i ∈ l →
      (l.foldl (fun acc j => setPA acc j ⟨[], .error⟩) c) i = some ⟨[], .error⟩ := by
  intro l
  induction l with
  | nil => intro c i h; exact absurd h (List.not_mem_nil i)
  | cons j l ih =>
    intro c i hi
    simp only [List.foldl_cons]
    by_cases hil : i ∈ l
    · exact ih _ i hil
    · have hij : i = j := by
        rcases List.mem_cons.mp hi with h | h
        · exact h
        · exact absurd h hil
      subst hij
      rw [errorFold_outside l _ i (fun j hj he => hil (he ▸ hj))]
      simp [setPA]

lemma markErrorRange_hits (c : Nat → Option PageAnalysis) (s e i : Nat)
    (h1 : s ≤ i) (h2 : i < e) : markErrorRange c s e i = some ⟨[], .error⟩ := by
  apply errorFold_mem
  rw [List.mem_range'_1]
  omega

lemma applyBatchResults_cases :
    ∀ (results : List (List SpeechBubble)) (c : Nat → Option PageAnalysis) (s i : Nat),
      applyBatchResults c s results i = c i ∨
      ∃ bs, applyBatchResults c s results i = some ⟨bs, .complete⟩ := by
  intro results
  induction results with
  | nil => intro c s i; exact Or.inl rfl
  | cons bs rest ih =>
    intro c s i
    simp only [applyBatchResults]
    rcases ih (setPA c s ⟨sortBubbles bs, .complete⟩) (s + 1) i with h | h
    · rw [h]
      by_cases his : i = s
      · subst his; exact Or.inr ⟨sortBubbles bs, by simp [setPA]⟩
      · left; simp [setPA, his]
    · exact Or.inr h

lemma performBatchedOCR_length (n : Nat) (parse : String → ParseOutcome)
    (resp : OCRResponse) (ts : List String)
    (h : performBatchedOCR n parse resp = .ok ts) : ts.length = n := by
  cases resp with
  | mergeError msg => simp [performBatchedOCR] at h
  | apiError msg => simp [performBatchedOCR] at h
  | noText =>
    simp only [performBatchedOCR, Except.ok.injEq] at h
    subst h; simp
  | text raw =>
    simp only [performBatchedOCR] at h
    cases hp : parse (cleanOCRText raw) with
    | parseError msg => rw [hp] at h; simp at h
    | notArray => rw [hp] at h; simp at h; subst h; simp
    | arrayVal entries => rw [hp] at h; simp at h; subst h; simp

lemma markFold_outside (stat : AnalysisStatus) :
    ∀ (l : List Nat) (c : Nat → Option PageAnalysis) (i : Nat),
      (∀ j ∈ l, j ≠ i) →
      (l.foldl (fun acc j =>
        if (acc j).map PageAnalysis.status = some .complete then acc
        else setPA acc j ⟨[], stat⟩) c) i = c i := by
  intro l
  induction l with
  | nil => intro c i _; rfl
  | cons j l ih =>
    intro c i hl
    simp only [List.foldl_cons]
    rw [ih _ i (fun j hj => hl j (List.mem_cons_of_mem _ hj))]
    by_cases hj : (c j).map PageAnalysis.status = some AnalysisStatus.complete
    · rw [if_pos hj]
    · rw [if_neg hj]; simp [setPA, (hl j (List.mem_cons_self _ _)).symm]

lemma markNonComplete_outside (stat : AnalysisStatus) (c : Nat → Option PageAnalysis)
    (s e i : Nat) (h : e ≤ i) : markNonComplete stat c s e i = c i := by
  apply markFold_outside
  intro j hj
  rw [List.mem_range'_1] at hj
  omega

lemma markErrorRange_outside (c : Nat → Option PageAnalysis) (s e i : Nat)
    (h : e ≤ i) : markErrorRange c s e i = c i := by
  apply errorFold_outside
  intro j hj
  rw [List.mem_range'_1] at hj
  omega

lemma applyBatchResults_outside :
    ∀ (results : List (List SpeechBubble)) (c : Nat → Option PageAnalysis) (s i : Nat),
      (i < s ∨ s + results.length ≤ i) → applyBatchResults c s results i = c i := by
  intro results
  induction results with
  | nil => intro c s i _; rfl
  | cons bs rest ih =>
    intro c s i hi
    simp only [List.length_cons] at hi
    simp only [applyBatchResults]
    rw [ih _ (s + 1) i (by omega)]
    have his : i ≠ s := by omega
    simp [setPA, his]

lemma writeTexts_outside :
    ∀ (texts : List String) (c : Nat → Option String) (s i : Nat),
      (i < s ∨ s + texts.length ≤ i) → writeTexts c s texts i = c i := by
  intro texts
  induction texts with
  | nil => intro c s i _; rfl
  | cons t rest ih =>
    intro c s i hi
    simp only [List.length_cons] at hi
    simp only [writeTexts]
    rw [ih _ (s + 1) i (by omega)]
    have his : i ≠ s := by omega
    simp [his]

lemma writeTexts_get :
    ∀ (texts : List String) (c : Nat → Option String) (s i : Nat),
      i < texts.length → writeTexts c s texts (s + i) = some (texts.getD i "") := by
  intro texts
  induction texts with
  | nil => intro c s i hi; simp at hi
  | cons t rest ih =>
    intro c s i hi
    simp only [writeTexts]
    cases i with
    | zero =>
      simp only [Nat.add_zero]
      rw [writeTexts_outside rest _ (s + 1) s (Or.inl (by omega))]
      simp
    | succ j =>
      have : s + (j + 1) = (s + 1) + j := by omega
      rw [this, ih _ (s + 1) j (by simpa using hi)]
      rfl

lemma requestOCRBegin_cache (numPages : Nat) (st : ReaderOCRState) (index : Nat) :
    (requestOCRBegin numPages st index).1.ocrTextCache = st.ocrTextCache := by
  simp only [requestOCRBegin]
  split
  · rfl
  · split
    · rfl
    · split <;> rfl

lemma requestOCRBegin_fresh (s : Nat) (cache : Nat → Option String)
    (h : (List.range' s 3).all (fun i => jsStrTruthy (cache i)) = false) :
    requestOCRBegin (s + 3) ⟨cache, []⟩ s = (⟨cache, [s]⟩, true) := by
  simp only [requestOCRBegin]
  have h3 : min (s + 3) (s + 3) - s = 3 := by omega
  rw [h3, h]
  simp [show min 3 (s + 3 - s) = 3 by omega]

/-! ## Helper lemmas for the fence-stripping pass -/

lemma stripAll_nil (eqf : Char → Char → Bool) (p : List Char) :
    stripAll eqf p [] = [] := by
  rw [stripAll]

lemma stripAll_cons_match (eqf : Char → Char → Bool) (p : List Char) (c : Char)
    (cs : List Char) (h : matchesAt eqf p (c :: cs) = true) :
    stripAll eqf p (c :: cs) = stripAll eqf p (cs.drop (p.length - 1)) := by
  rw [stripAll, if_pos h]

lemma stripAll_cons_not (eqf : Char → Char → Bool) (p : List Char) (c : Char)
    (cs : List Char) (h : matchesAt eqf p (c :: cs) = false) :
    stripAll eqf p (c :: cs) = c :: stripAll eqf p cs := by
  rw [stripAll, if_neg (by simp [h])]

lemma matchesAt_length (eqf : Char → Char → Bool) :
    ∀ (p s : List Char), matchesAt eqf p s = true → p.length ≤ s.length := by
  intro p
  induction p with
  | nil => intro s _; simp
  | cons pc ps ih =>
    intro s h
    cases s with
    | nil => simp [matchesAt] at h
    | cons c cs =>
      simp only [matchesAt, Bool.and_eq_true] at h
      simpa using ih cs h.2

lemma matchesAt_append_of_le (eqf : Char → Char → Bool) :
    ∀ (p a b : List Char), p.length ≤ a.length →
      matchesAt eqf p (a ++ b) = matchesAt eqf p a := by
  intro p
  induction p with
  | nil => intro a b _; rfl
  | cons pc ps ih =>
    intro a b h
    cases a with
    | nil => simp at h
    | cons c cs =>
      simp only [List.cons_append, matchesAt, List.append_eq]
      rw [ih cs b (by simpa using h)]

lemma matchesAt_true_append (eqf : Char → Char → Bool) (p a b : List Char)
    (h : matchesAt eqf p a = true) : matchesAt eqf p (a ++ b) = true := by
  rw [matchesAt_append_of_le eqf p a b (matchesAt_length eqf p a h)]
  exact h

lemma matchesAt_nl_bound (eqf : Char → Char → Bool) (p : List Char)
    (hp : ∀ c ∈ p, eqf c '\n' = false) :
    ∀ (a b : List Char), matchesAt eqf p (a ++ '\n' :: b) = true → p.length ≤ a.length := by
  induction p with
  | nil => intro a b _; simp
  | cons pc ps ih =>
    intro a b h
    cases a with
    | nil =>
      simp only [List.nil_append, matchesAt, Bool.and_eq_true] at h
      exact absurd h.1 (by simp [hp pc (List.mem_cons_self _ _)])
    | cons c cs =>
      simp only [List.cons_append, matchesAt, Bool.and_eq_true] at h
      have := ih (fun c hc => hp c (List.mem_cons_of_mem _ hc)) cs b h.2
      simpa using this

lemma stripAll_append_nl_aux (eqf : Char → Char → Bool) (p : List Char)
    (hp : ∀ c ∈ p, eqf c '\n' = false) :
    ∀ (n : Nat) (a b : List Char), a.length ≤ n →
      stripAll eqf p (a ++ '\n' :: b) = stripAll eqf p a ++ stripAll eqf p ('\n' :: b) := by
  intro n
  induction n with
  | zero =>
    intro a b ha
    have : a = [] := List.length_eq_zero.mp (Nat.le_zero.mp ha)
    subst this
    simp [stripAll_nil]
  | succ n ih =>
    intro a b ha
    cases a with
    | nil => simp [stripAll_nil]
    | cons c cs =>
      by_cases hm : matchesAt eqf p (c :: cs ++ '\n' :: b) = true
      · have hple : p.length ≤ (c :: cs).length := matchesAt_nl_bound eqf p hp (c :: cs) b hm
        have hm2 : matchesAt eqf p (c :: cs) = true := by
          rw [← matchesAt_append_of_le eqf p (c :: cs) ('\n' :: b) hple]
          exact hm
        rw [show (c :: cs) ++ '\n' :: b = c :: (cs ++ '\n' :: b) from rfl] at hm ⊢
        rw [stripAll_cons_match eqf p c _ hm]
        rw [stripAll_cons_match eqf p c cs hm2]
        have hdrop : (cs ++ '\n' :: b).drop (p.length - 1) =
            cs.drop (p.length - 1) ++ '\n' :: b := by
          rw [List.drop_append_of_le_length (by simp at hple; omega)]
        rw [hdrop]
        exact ih (cs.drop (p.length - 1)) b (by simp; simp at ha; omega)
      · have hm2 : matchesAt eqf p (c :: cs) = false := by
          by_contra hcon
          have : matchesAt eqf p (c :: cs) = true := by
            cases hx : matchesAt eqf p (c :: cs)
            · exact absurd hx hcon
            · rfl
          exact hm (matchesAt_true_append eqf p (c :: cs) ('\n' :: b) this)
        have hmf : matchesAt eqf p (c :: cs ++ '\n' :: b) = false := by
          cases hx : matchesAt eqf p (c :: cs ++ '\n' :: b)
          · rfl
          · exact absurd hx hm
        rw [show (c :: cs) ++ '\n' :: b = c :: (cs ++ '\n' :: b) from rfl] at hmf ⊢
        rw [stripAll_cons_not eqf p c _ hmf]
        rw [stripAll_cons_not eqf p c cs hm2]
        rw [ih cs b (by simp at ha; omega)]
        simp

lemma stripAll_append_nl (eqf : Char → Char → Bool) (p : List Char)
    (hp : ∀ c ∈ p, eqf c '\n' = false) (a b : List Char) :
    stripAll eqf p (a ++ '\n' :: b) = stripAll eqf p a ++ stripAll eqf p ('\n' :: b) :=
  stripAll_append_nl_aux eqf p hp a.length a b (Nat.le_refl _)

lemma matchesAt_refl_append (eqf : Char → Char → Bool) (hrefl : ∀ c : Char, eqf c c = true) :
    ∀ (p x : List Char), matchesAt eqf p (p ++ x) = true := by
  intro p
  induction p with
  | nil => intro x; rfl
  | cons pc ps ih =>
    intro x
    simp only [List.cons_append, matchesAt, Bool.and_eq_true]
    exact ⟨hrefl pc, ih x⟩

lemma stripAll_drops_pattern (eqf : Char → Char → Bool) (hrefl : ∀ c : Char, eqf c c = true)
    (pc : Char) (ps x : List Char) :
    stripAll eqf (pc :: ps) ((pc :: ps) ++ x) = stripAll eqf (pc :: ps) x := by
  rw [show (pc :: ps) ++ x = pc :: (ps ++ x) from rfl]
  rw [stripAll_cons_match eqf (pc :: ps) pc (ps ++ x)
    (matchesAt_refl_append eqf hrefl (pc :: ps) x)]
  congr 1
  simp

lemma stripAll_cons_headne (eqf : Char → Char → Bool) (pc : Char) (ps : List Char)
    (c : Char) (cs : List Char) (h : eqf pc c = false) :
    stripAll eqf (pc :: ps) (c :: cs) = c :: stripAll eqf (pc :: ps) cs := by
  apply stripAll_cons_not
  simp [matchesAt, h]

lemma stripAll_json_ticks : stripAll ciCharEq jsonFencePat tickPat = tickPat := by
  rw [show tickPat = '`' :: '`' :: '`' :: [] from rfl]
  rw [stripAll_cons_not _ _ _ _ (by decide), stripAll_cons_not _ _ _ _ (by decide),
    stripAll_cons_not _ _ _ _ (by decide), stripAll_nil]

lemma stripAll_ticks_self : stripAll csCharEq tickPat tickPat = [] := by
  have h := stripAll_drops_pattern csCharEq (fun c => by simp [csCharEq]) '`' ['`', '`']
    ([] : List Char)
  rw [List.append_nil] at h
  rw [show tickPat = '`' :: ['`', '`'] from rfl]
  rw [h, stripAll_nil]

lemma jsTrimRight_append_nl (x : List Char) : jsTrimRight (x ++ ['\n']) = jsTrimRight x := by
  simp only [jsTrimRight, List.reverse_append, List.reverse_cons, List.reverse_nil,
    List.nil_append, List.singleton_append]
  rw [List.dropWhile_cons_of_pos (by decide)]

lemma jsTrim_append_nl (x : List Char) : jsTrim (x ++ ['\n']) = jsTrim x := by
  simp only [jsTrim, jsTrimRight_append_nl]

lemma jsTrim_cons_nl (x : List Char) : jsTrim ('\n' :: x) = jsTrim x := by
  simp only [jsTrim, jsTrimRight, List.reverse_cons]
  by_cases hx : x.reverse.dropWhile isJsWhitespace = []
  · rw [List.dropWhile_append, if_pos (by simp [hx]), hx,
      show List.dropWhile isJsWhitespace ['\n'] = [] by decide]
  · rw [List.dropWhile_append, if_neg (by simp [hx])]
    simp only [List.reverse_append, List.reverse_cons, List.reverse_nil, List.nil_append,
      List.singleton_append, jsTrimLeft]
    rw [List.dropWhile_cons_of_pos (by decide)]

lemma strip1_nl_step (b : List Char) :
    stripAll ciCharEq jsonFencePat ('\n' :: b) = '\n' :: stripAll ciCharEq jsonFencePat b := by
  rw [show jsonFencePat = '`' :: ['`', '`', 'j', 's', 'o', 'n'] from rfl]
  exact stripAll_cons_headne ciCharEq '`' _ '\n' b (by decide)

lemma strip2_nl_step (b : List Char) :
    stripAll csCharEq tickPat ('\n' :: b) = '\n' :: stripAll csCharEq tickPat b := by
  rw [show tickPat = '`' :: ['`', '`'] from rfl]
  exact stripAll_cons_headne csCharEq '`' _ '\n' b (by decide)

lemma cleanChars_fenced (t : List Char) :
    cleanChars (jsonFencePat ++ '\n' :: (t ++ '\n' :: tickPat)) = cleanChars t := by
  simp only [cleanChars]
  have hs1 : stripAll ciCharEq jsonFencePat (jsonFencePat ++ '\n' :: (t ++ '\n' :: tickPat)) =
      '\n' :: (stripAll ciCharEq jsonFencePat t ++ '\n' :: tickPat) := by
    rw [show jsonFencePat = '`' :: ['`', '`', 'j', 's', 'o', 'n'] from rfl]
    rw [stripAll_drops_pattern ciCharEq (fun c => by simp [ciCharEq]) '`' _ _]
    rw [show ('`' : Char) :: ['`', '`', 'j', 's', 'o', 'n'] = jsonFencePat from rfl]
    rw [strip1_nl_step]
    rw [stripAll_append_nl ciCharEq jsonFencePat (by decide) t tickPat]
    rw [strip1_nl_step, stripAll_json_ticks]
  rw [hs1]
  have hs2 : stripAll csCharEq tickPat
      ('\n' :: (stripAll ciCharEq jsonFencePat t ++ '\n' :: tickPat)) =
      '\n' :: (stripAll csCharEq tickPat (stripAll ciCharEq jsonFencePat t) ++ ['\n']) := by
    rw [strip2_nl_step]
    rw [stripAll_append_nl csCharEq tickPat (by decide) _ tickPat]
    rw [strip2_nl_step, stripAll_ticks_self]
  rw [hs2]
  rw [show ('\n' : Char) :: (stripAll csCharEq tickPat (stripAll ciCharEq jsonFencePat t) ++ ['\n'])
    = ('\n' :: stripAll csCharEq tickPat (stripAll ciCharEq jsonFencePat t)) ++ ['\n'] from rfl]
  rw [jsTrim_append_nl, jsTrim_cons_nl]

/-! ## Claim theorems -/

/-- Claim C1 (amended): a stacked-OCR request over 3 uncached pages starting at
`s` whose backend returns `["Hello", "", "World"]` leaves the TextCache mapping
`s ↦ "Hello"`, `s+1 ↦ ""`, `s+2 ↦ "World"`; but a subsequent request for the
same 3 pages is NOT a no-op: the page cached as the empty string is falsy in
the all-cached check, so the batch is re-requested (a second remote call is
issued). -/
theorem ocr_empty_string_recached :
    ∀ (s : Nat) (cache : Nat → Option String),
      cache s = none →
      ((requestOCRForPage (s + 3) ⟨cache, []⟩ s (.ok ["Hello", "", "World"])).1.ocrTextCache s
          = some "Hello" ∧
        (requestOCRForPage (s + 3) ⟨cache, []⟩ s (.ok ["Hello", "", "World"])).1.ocrTextCache (s + 1)
          = some "" ∧
        (requestOCRForPage (s + 3) ⟨cache, []⟩ s (.ok ["Hello", "", "World"])).1.ocrTextCache (s + 2)
          = some "World") ∧
      (requestOCRForPage (s + 3) ⟨cache, []⟩ s (.ok ["Hello", "", "World"])).2 = true ∧
      (requestOCRForPage (s + 3)
          (requestOCRForPage (s + 3) ⟨cache, []⟩ s (.ok ["Hello", "", "World"])).1
          s (.ok ["Hello", "", "World"])).2 = true := by
  intro s cache h
  have hb := requestOCRBegin_fresh s cache (by simp [List.range', jsStrTruthy, h])
  have hwhole : requestOCRForPage (s + 3) ⟨cache, []⟩ s (.ok ["Hello", "", "World"]) =
      (⟨writeTexts cache s ["Hello", "", "World"], []⟩, true) := by
    simp only [requestOCRForPage, hb, requestOCRFinish]
    simp [setDelete]
  have hs0 : writeTexts cache s ["Hello", "", "World"] s = some "Hello" := by
    have := writeTexts_get ["Hello", "", "World"] cache s 0 (by simp)
    simpa using this
  have hs1 : writeTexts cache s ["Hello", "", "World"] (s + 1) = some "" :=
    writeTexts_get ["Hello", "", "World"] cache s 1 (by simp)
  have hs2 : writeTexts cache s ["Hello", "", "World"] (s + 2) = some "World" :=
    writeTexts_get ["Hello", "", "World"] cache s 2 (by simp)
  rw [hwhole]
  refine ⟨⟨hs0, hs1, hs2⟩, rfl, ?_⟩
  have hb2 := requestOCRBegin_fresh s (writeTexts cache s ["Hello", "", "World"])
    (by simp [List.range', jsStrTruthy, hs1, show "".isEmpty = true from rfl])
  simp only [requestOCRForPage, hb2]
  rfl

/-- Claim C1 (witness): the amended scenario instantiated at start page 0 with
an empty cache; the first call succeeds and issues a remote call. -/
theorem ocr_empty_string_recached_witness :
    (requestOCRForPage (0 + 3) ⟨fun _ => none, []⟩ 0 (.ok ["Hello", "", "World"])).2 = true :=
  (ocr_empty_string_recached 0 (fun _ => none) rfl).2.1

/-- Claim C1 (counterexample): after caching `["Hello", "", "World"]` for pages
0-2, re-requesting the same 3 pages issues another remote call (the flag is
`true`), refuting the claimed no-op: the empty-string entry for page 1 does
not count as cached. -/
theorem ocr_allcached_noop_refuted :
    (requestOCRForPage 3
      (requestOCRForPage 3 ⟨fun _ => none, []⟩ 0 (.ok ["Hello", "", "World"])).1
      0 (.ok ["Hello", "", "World"])).2 = true := by
  decide

/-- Claim C2 (amended): a page whose TextCache entry is present but empty is
treated by narration exactly like a page with no entry: the empty string is
falsy, so `speakCurrentPage` falls through to bubble-based narration and
speaks the complete entry's bubbles; it produces zero utterances only when
the bubble fallback also yields nothing (for example when the page has no
analysis entry). -/
theorem narration_empty_text_falls_back :
    (∀ (ocrC : Nat → Option String) (anaC : Nat → Option PageAnalysis) (p : Nat)
      (bs : List SpeechBubble),
      ocrC p = some "" → anaC p = some ⟨bs, .complete⟩ → bs ≠ [] →
      speakCurrentPage true true ocrC anaC p none false = bs.map (fun b => b.text)) ∧
    (∀ (ocrC : Nat → Option String) (anaC : Nat → Option PageAnalysis) (p : Nat),
      ocrC p = some "" → anaC p = none →
      speakCurrentPage true true ocrC anaC p none false = []) := by
  constructor
  · intro ocrC anaC p bs h1 h2 hbs
    simp [speakCurrentPage, h1, h2, jsStrTruthy, hbs, show "".isEmpty = true from rfl]
  · intro ocrC anaC p h1 h2
    simp [speakCurrentPage, h1, h2, jsStrTruthy, show "".isEmpty = true from rfl]

/-- Claim C2 (witness): the fall-through instantiated at page 0 with one
bubble "Hi": the bubble is spoken even though the page's cached text is the
(present) empty string. -/
theorem narration_empty_text_falls_back_witness :
    speakCurrentPage true true (fun _ => some "")
      (fun _ => some ⟨[⟨"Hi", 1, 2, 3, 4⟩], .complete⟩) 0 none false =
      ([⟨"Hi", 1, 2, 3, 4⟩] : List SpeechBubble).map (fun b => b.text) :=
  narration_empty_text_falls_back.1 (fun _ => some "")
    (fun _ => some ⟨[⟨"Hi", 1, 2, 3, 4⟩], .complete⟩) 0 [⟨"Hi", 1, 2, 3, 4⟩] rfl rfl (by simp)

/-- Claim C2 (counterexample): page 0 has TextCache entry `""` (present) and a
complete analysis entry with one bubble; narration speaks that bubble, so the
claimed "zero utterances and no bubble fallback" is false. -/
theorem narration_empty_text_speaks_bubbles :
    speakCurrentPage true true (fun i => if i = 0 then some "" else none)
      (fun i => if i = 0 then some ⟨[⟨"Hi", 1, 2, 3, 4⟩], .complete⟩ else none)
      0 none false = ["Hi"] := by
  decide

/-- Claim C3 (amended): `analyzeMangaPages` never throws; absent, malformed and
non-array responses degrade to exactly `n` empty results, but an array
response yields one result per response entry (entry-wise
`pageResult.bubbles || []`), so a response shorter than `n` is NOT padded:
missing pages are silently dropped. -/
theorem analyzeMangaPages_shape :
    (∀ (n : Nat) (entries : List (Option (List SpeechBubble))),
      (analyzeMangaPages n (.array entries)).length = entries.length) ∧
    (∀ (n i : Nat) (entries : List (Option (List SpeechBubble))),
      (analyzeMangaPages n (.array entries)).getD i [] = ((entries.getD i none).getD [])) ∧
    (∀ n : Nat,
      analyzeMangaPages n .noText = List.replicate n [] ∧
      analyzeMangaPages n .unparsable = List.replicate n [] ∧
      analyzeMangaPages n .nonArray = List.replicate n [] ∧
      analyzeMangaPages n .networkError = List.replicate n []) := by
  refine ⟨?_, ?_, fun n => ⟨rfl, rfl, rfl, rfl⟩⟩
  · intro n entries; simp [analyzeMangaPages]
  · intro n i entries
    simp only [analyzeMangaPages]
    induction entries generalizing i with
    | nil => rfl
    | cons e es ih =>
      cases i with
      | zero => rfl
      | succ j => exact ih j

/-- Claim C3 (counterexample): for 3 input images and a 1-entry response
array, `analyzeMangaPages` returns 1 result, not the claimed 3 padded
results. -/
theorem analyzeMangaPages_short_array_not_padded :
    (analyzeMangaPages 3 (.array [some [⟨"x", 1, 2, 3, 4⟩]])).length = 1 ∧
    (analyzeMangaPages 3 (.array [some [⟨"x", 1, 2, 3, 4⟩]])).length ≠ 3 := by
  constructor <;> decide

/-- Claim C4 (amended): `performBatchedOCR` returns exactly one string per
requested page on every successful return, and a JSON parse failure of the
cleaned text throws a descriptive error; however an absent model response
and a non-array parse do NOT throw: both silently return one empty string
per page, indistinguishable from genuine "no dialogue" results. -/
theorem performBatchedOCR_outcomes :
    (∀ (n : Nat) (parse : String → ParseOutcome),
      performBatchedOCR n parse .noText = .ok (List.replicate n "")) ∧
    (∀ (n : Nat) (parse : String → ParseOutcome) (raw msg : String),
      parse (cleanOCRText raw) = .parseError msg →
      performBatchedOCR n parse (.text raw) =
        .error ("JSON parse failed: " ++ msg ++ ". Raw: " ++ raw.take 100)) ∧
    (∀ (n : Nat) (parse : String → ParseOutcome) (raw : String),
      parse (cleanOCRText raw) = .notArray →
      performBatchedOCR n parse (.text raw) = .ok (List.replicate n "")) ∧
    (∀ (n : Nat) (parse : String → ParseOutcome) (raw : String) (entries : List (Option String)),
      parse (cleanOCRText raw) = .arrayVal entries →
      performBatchedOCR n parse (.text raw) =
        .ok ((List.range n).map (fun i => (entries.getD i none).getD ""))) ∧
    (∀ (n : Nat) (parse : String → ParseOutcome) (resp : OCRResponse) (ts : List String),
      performBatchedOCR n parse resp = .ok ts → ts.length = n) := by
  refine ⟨fun n parse => rfl, ?_, ?_, ?_, ?_⟩
  · intro n parse raw msg h; simp [performBatchedOCR, h]
  · intro n parse raw h; simp [performBatchedOCR, h]
  · intro n parse raw entries h; simp [performBatchedOCR, h]
  · intro n parse resp ts h; exact performBatchedOCR_length n parse resp ts h

/-- Claim C4 (witness): a parse failure surfaces as the descriptive error,
instantiated at 2 pages with message "boom". -/
theorem performBatchedOCR_outcomes_witness :
    performBatchedOCR 2 (fun _ => .parseError "boom") (.text "raw") =
      .error ("JSON parse failed: " ++ "boom" ++ ". Raw: " ++ ("raw" : String).take 100) :=
  performBatchedOCR_outcomes.2.1 2 (fun _ => .parseError "boom") "raw" "boom" rfl

/-- Claim C4 (counterexample): an absent model response and a non-array parse
both yield `.ok ["", "", ""]` for 3 requested pages — silently returned empty
strings, refuting "never results in silently returned empty strings". -/
theorem performBatchedOCR_silent_empties :
    performBatchedOCR 3 (fun _ => .notArray) .noText = .ok ["", "", ""] ∧
    performBatchedOCR 3 (fun _ => .notArray) (.text "not json at all") = .ok ["", "", ""] := by
  constructor <;> rfl

/-- Claim C5 (amended): the preload marking pass and the batch-start (loading)
marking pass never overwrite a page whose status is `complete`; the batch
success handler only ever writes entries with status `complete` (though it
may replace a complete entry's bubbles); but the batch failure handler
unconditionally overwrites every page in the attempted range — `complete`
entries included — with `{ bubbles: [], status: error }`. -/
theorem complete_status_protection :
    (∀ (stat : AnalysisStatus) (c : Nat → Option PageAnalysis) (s e i : Nat),
      (c i).map PageAnalysis.status = some .complete →
      markNonComplete stat c s e i = c i) ∧
    (∀ (c : Nat → Option PageAnalysis) (s i : Nat) (results : List (List SpeechBubble)),
      applyBatchResults c s results i = c i ∨
      ∃ bs, applyBatchResults c s results i = some ⟨bs, .complete⟩) ∧
    (∀ (c : Nat → Option PageAnalysis) (s e i : Nat), s ≤ i → i < e →
      markErrorRange c s e i = some ⟨[], .error⟩) := by
  exact ⟨markNonComplete_preserve_complete,
    fun c s i results => applyBatchResults_cases results c s i,
    markErrorRange_hits⟩

/-- Claim C5 (witness): a loading pass over pages 0-3 leaves the complete
entry at page 2 untouched. -/
theorem complete_status_protection_witness :
    markNonComplete .loading (fun _ => some ⟨[], .complete⟩) 0 4 2 = some ⟨[], .complete⟩ :=
  complete_status_protection.1 .loading (fun _ => some ⟨[], .complete⟩) 0 4 2 rfl

/-- Claim C5 (counterexample): page 0 is `complete`, then `analyzeBatch` for
batch 0 fails; afterwards page 0 has status `error` with its bubbles
discarded, so `complete` is not terminal. -/
theorem complete_overwritten_by_error :
    (analyzeBatch 1 ⟨fun i => if i = 0 then some ⟨[⟨"Hi", 1, 2, 3, 4⟩], .complete⟩ else none, []⟩
        0 (.error ())).1.analysisCache 0 = some ⟨[], .error⟩ ∧
    (fun i => if i = 0 then some ⟨[⟨"Hi", 1, 2, 3, 4⟩], .complete⟩ else none : Nat → Option PageAnalysis)
        0 = some ⟨[⟨"Hi", 1, 2, 3, 4⟩], .complete⟩ := by
  constructor <;> decide

/-- Claim C6 (amended): in the vision domain the claim holds in full — a begin
step on a key already in `processingQueue` returns the state unchanged with
no remote call, a begin step that issued a remote call leaves its key in the
set so an immediate re-invocation is a no-op, and the finish step removes
the key on success and on failure.  In the OCR domain the finish step also
removes the key on both outcomes and a guarded re-invocation issues no
remote call itself, but the re-invocation's `finally` clause DELETES the
first call's in-flight key from `pendingOCRBatches`, so once a re-invocation
has run, the key is no longer in flight and a further invocation passes the
guard (and can issue a duplicate remote call while the first is still
outstanding — see the counterexample). -/
theorem in_flight_dedup :
    (∀ (numPages : Nat) (st : AnalyzeState) (k : Nat),
      k ∈ st.processingQueue → analyzeBatchBegin numPages st k = (st, false)) ∧
    (∀ (numPages : Nat) (st st1 : AnalyzeState) (k : Nat),
      analyzeBatchBegin numPages st k = (st1, true) →
        k ∈ st1.processingQueue ∧ analyzeBatchBegin numPages st1 k = (st1, false)) ∧
    (∀ (numPages : Nat) (st : AnalyzeState) (k : Nat)
      (remote : Except Unit (List (List SpeechBubble))),
      k ∉ (analyzeBatchFinish numPages st k remote).processingQueue) ∧
    (∀ (numPages : Nat) (st : ReaderOCRState) (k : Nat),
      k ∈ st.pendingOCRBatches →
        requestOCRBegin numPages st k =
          (⟨st.ocrTextCache, setDelete st.pendingOCRBatches k⟩, false)) ∧
    (∀ (numPages : Nat) (st : ReaderOCRState) (st1 : ReaderOCRState) (k : Nat),
      requestOCRBegin numPages st k = (st1, true) →
        k ∈ st1.pendingOCRBatches ∧
        requestOCRBegin numPages st1 k =
          (⟨st1.ocrTextCache, setDelete st1.pendingOCRBatches k⟩, false) ∧
        k ∉ setDelete st1.pendingOCRBatches k) ∧
    (∀ (st : ReaderOCRState) (k : Nat) (remote : Except String (List String)),
      k ∉ (requestOCRFinish st k remote).pendingOCRBatches) := by
  refine ⟨analyzeBatchBegin_of_mem, ?_, ?_, requestOCRBegin_of_mem, ?_, ?_⟩
  · intro numPages st st1 k h
    obtain ⟨hk, rfl⟩ := analyzeBatchBegin_true_elim numPages st st1 k h
    exact ⟨List.mem_cons_self _ _, analyzeBatchBegin_of_mem _ _ _ (List.mem_cons_self _ _)⟩
  · intro numPages st k remote
    cases remote <;> simp [analyzeBatchFinish, not_mem_setDelete_self]
  · intro numPages st st1 k h
    obtain ⟨hnp, rfl⟩ := requestOCRBegin_true_elim numPages st st1 k h
    exact ⟨List.mem_cons_self _ _,
      requestOCRBegin_of_mem _ _ _ (List.mem_cons_self _ _),
      not_mem_setDelete_self _ _⟩
  · intro st k remote
    cases remote <;> simp [requestOCRFinish, not_mem_setDelete_self]

/-- Claim C6 (witness): vision — with batch 1 already in flight, a begin step
on key 1 returns the state unchanged with no remote call; OCR — with batch 0
already in flight, a guarded re-invocation issues no remote call but removes
key 0 from the in-flight set. -/
theorem in_flight_dedup_witness :
    analyzeBatchBegin 8 ⟨fun _ => none, [1]⟩ 1 = (⟨fun _ => none, [1]⟩, false) ∧
    requestOCRBegin 3 ⟨fun _ => none, [0]⟩ 0 = (⟨fun _ => none, []⟩, false) :=
  ⟨in_flight_dedup.1 8 ⟨fun _ => none, [1]⟩ 1 (by simp),
   in_flight_dedup.2.2.2.1 3 ⟨fun _ => none, [0]⟩ 0 (by simp)⟩

/-- Claim C6 (counterexample): OCR domain, 3 pages, key 0.  The first begin
step issues a remote call and puts 0 in flight.  A re-invocation while that
call is outstanding issues no call, but its `finally` clause deletes key 0
from `pendingOCRBatches`.  A third invocation then passes the guard and
issues a second remote call for the same key while the first is still
outstanding — refuting "exactly one underlying remote call for that key". -/
theorem ocr_duplicate_remote_call :
    (requestOCRBegin 3 ⟨fun _ => none, []⟩ 0).2 = true ∧
    0 ∈ (requestOCRBegin 3 ⟨fun _ => none, []⟩ 0).1.pendingOCRBatches ∧
    (requestOCRBegin 3 (requestOCRBegin 3 ⟨fun _ => none, []⟩ 0).1 0).2 = false ∧
    0 ∉ (requestOCRBegin 3 (requestOCRBegin 3 ⟨fun _ => none, []⟩ 0).1 0).1.pendingOCRBatches ∧
    (requestOCRBegin 3
      (requestOCRBegin 3 (requestOCRBegin 3 ⟨fun _ => none, []⟩ 0).1 0).1 0).2 = true := by
  refine ⟨?_, ?_, ?_, ?_, ?_⟩ <;> decide

/-- Claim C7 (amended): the marking passes of both vision functions and the
entire OCR path never touch a cache entry at an index ≥ the page count
(ranges clip via `min` and the urls slice); the vision success handler also
stays in range provided the response contains at most one result per page
requested — but that bound is not enforced, and an overlong response writes
past the final page (see the counterexample). -/
theorem batch_range_clipping :
    (∀ (numPages : Nat) (st : AnalyzeState) (k : Nat)
      (remote : Except Unit (List (List SpeechBubble))) (i : Nat),
      numPages ≤ i →
      (∀ rs, remote = .ok rs →
        rs.length ≤ min (k * BATCH_SIZE + BATCH_SIZE) numPages - k * BATCH_SIZE) →
      (analyzeBatch numPages st k remote).1.analysisCache i = st.analysisCache i) ∧
    (∀ (numPages : Nat) (preloaded : Nat → Bool) (st : AnalyzeState) (k i : Nat),
      numPages ≤ i →
      (preloadBatchBegin numPages preloaded st k).1.analysisCache i = st.analysisCache i) ∧
    (∀ (numPages : Nat) (st : ReaderOCRState) (index : Nat)
      (parse : String → ParseOutcome) (resp : OCRResponse) (i : Nat),
      numPages ≤ i →
      (requestOCRForPageFull numPages st index parse resp).1.ocrTextCache i = st.ocrTextCache i) := by
  refine ⟨?_, ?_, ?_⟩
  · intro numPages st k remote i hi hlen
    by_cases hk : k ∈ st.processingQueue
    · simp [analyzeBatch, analyzeBatchBegin, hk]
    · have hm : (k * BATCH_SIZE + BATCH_SIZE) ⊓ numPages ≤ numPages := inf_le_right
      cases remote with
      | ok rs =>
        have hrs := hlen rs rfl
        simp only [analyzeBatch, analyzeBatchBegin, if_neg hk, if_true, ite_true,
          analyzeBatchFinish]
        rw [applyBatchResults_outside rs _ (k * BATCH_SIZE) i (by omega)]
        exact markNonComplete_outside _ _ _ _ i (by omega)
      | error e =>
        simp only [analyzeBatch, analyzeBatchBegin, if_neg hk, if_true, ite_true,
          analyzeBatchFinish]
        rw [markErrorRange_outside _ (k * BATCH_SIZE) ((k * BATCH_SIZE + BATCH_SIZE) ⊓ numPages)
          i (by omega)]
        exact markNonComplete_outside _ _ _ _ i (by omega)
  · intro numPages preloaded st k i hi
    by_cases hk : k ∈ st.processingQueue
    · simp [preloadBatchBegin, hk]
    · simp only [preloadBatchBegin, if_neg hk]
      split
      · rfl
      · exact markNonComplete_outside _ _ _ _ i
          (le_trans inf_le_right hi)
  · intro numPages st index parse resp i hi
    simp only [requestOCRForPageFull, requestOCRForPage]
    by_cases hb : (requestOCRBegin numPages st index).2
    · rw [if_pos hb]
      cases hr : performBatchedOCR (min 3 (numPages - index)) parse resp with
      | ok ts =>
        have hts := performBatchedOCR_length _ _ _ _ hr
        simp only [requestOCRFinish]
        rw [writeTexts_outside ts _ index i (by omega)]
        rw [requestOCRBegin_cache]
      | error e =>
        simp only [requestOCRFinish]
        rw [requestOCRBegin_cache]
    · rw [if_neg hb]
      rw [requestOCRBegin_cache]

/-- Claim C7 (witness): with 1 page and a well-sized one-result response,
`analyzeBatch` leaves the (out-of-range) entry at page 3 untouched. -/
theorem batch_range_clipping_witness :
    (analyzeBatch 1 ⟨fun _ => none, []⟩ 0 (.ok [[]])).1.analysisCache 3 = none :=
  batch_range_clipping.1 1 ⟨fun _ => none, []⟩ 0 (.ok [[]]) 3 (by omega)
    (fun rs h => by cases h; decide)

/-- Claim C7 (counterexample): with 1 page, a backend response carrying 3 page
results makes the vision success handler write cache entries for pages 1 and
2 — indices ≥ the page count — refuting "no operation writes a cache entry
for a page index ≥ N". -/
theorem vision_overlong_response_out_of_range :
    (analyzeBatch 1 ⟨fun _ => none, []⟩ 0
      (.ok (analyzeMangaPages 1 (.array [some [], some [], some []])))).1.analysisCache 1 =
      some ⟨[], .complete⟩ ∧
    (analyzeBatch 1 ⟨fun _ => none, []⟩ 0
      (.ok (analyzeMangaPages 1 (.array [some [], some [], some []])))).1.analysisCache 2 =
      some ⟨[], .complete⟩ := by
  constructor <;> decide

/-- Claim C8: the bubble comparator orders a before b by ascending ymin when
the ymin values differ by more than 50, and by descending xmin (right to
left) when they differ by at most 50; on the spec's example (ymin values
[10, 15, 500], xmin values [300, 100, 50]) the sorted order is the
(10, 300) bubble, then (15, 100), then (500, 50), from either input
order. -/
theorem bubble_ordering :
    (∀ a b : SpeechBubble, (a.ymin - b.ymin).natAbs ≤ 50 →
      (bubbleCompare a b < 0 ↔ b.xmin < a.xmin)) ∧
    (∀ a b : SpeechBubble, 50 < (a.ymin - b.ymin).natAbs →
      (bubbleCompare a b < 0 ↔ a.ymin < b.ymin)) ∧
    sortBubbles [bubbleEx1, bubbleEx2, bubbleEx3] = [bubbleEx1, bubbleEx2, bubbleEx3] ∧
    sortBubbles [bubbleEx3, bubbleEx2, bubbleEx1] = [bubbleEx1, bubbleEx2, bubbleEx3] := by
  refine ⟨?_, ?_, by decide, by decide⟩
  · intro a b h
    simp only [bubbleCompare]
    rw [if_neg (by omega)]
    omega
  · intro a b h
    simp only [bubbleCompare]
    rw [if_pos (by omega)]
    omega

/-- Claim C8 (witness): the comparator characterizations instantiated on the
example bubbles: within the 50-unit band (ymin 10 vs 15) order is by
descending xmin; across it (ymin 10 vs 500) order is by ascending ymin. -/
theorem bubble_ordering_witness :
    (bubbleCompare ⟨"a", 10, 300, 20, 400⟩ ⟨"b", 15, 100, 25, 200⟩ < 0 ↔
      (100 : Int) < 300) ∧
    (bubbleCompare ⟨"a", 10, 300, 20, 400⟩ ⟨"c", 500, 50, 600, 150⟩ < 0 ↔
      (10 : Int) < 500) :=
  ⟨bubble_ordering.1 _ _ (by decide), bubble_ordering.2.1 _ _ (by decide)⟩

/-- Claim C9: for every response text t, wrapping it in markdown fences
("```json\n" before, "\n```" after) yields exactly the same cleaned text as
the bare t, so the two responses parse identically (any parse of the cleaned
text gives the same outcome). -/
theorem fence_stripping_identical :
    ∀ t : String,
      cleanOCRText ("```json\n" ++ t ++ "\n```") = cleanOCRText t ∧
      ∀ parse : String → ParseOutcome,
        parse (cleanOCRText ("```json\n" ++ t ++ "\n```")) = parse (cleanOCRText t) := by
  intro t
  have hdata : ("```json\n" ++ t ++ "\n```").data =
      jsonFencePat ++ '\n' :: (t.data ++ '\n' :: tickPat) := by
    rw [String.data_append, String.data_append]
    rw [show ("```json\n").data = jsonFencePat ++ ['\n'] from rfl]
    rw [show ("\n```").data = '\n' :: tickPat from rfl]
    simp
  have hmain : cleanOCRText ("```json\n" ++ t ++ "\n```") = cleanOCRText t := by
    simp only [cleanOCRText, hdata]
    rw [cleanChars_fenced]
  exact ⟨hmain, fun parse => by rw [hmain]⟩

/-- Claim C10: `preloadBatch` and `analyzeBatch` guard on the same
`processingQueue` keyed by the vision batch index: once either begin step
has put key k in flight, the other function's begin step on k returns the
state unchanged (no remote call, no cache change). -/
theorem shared_queue_mutual_exclusion :
    (∀ (numPages : Nat) (preloaded : Nat → Bool) (st st1 : AnalyzeState) (k : Nat),
      preloadBatchBegin numPages preloaded st k = (st1, true) →
        k ∈ st1.processingQueue ∧ analyzeBatchBegin numPages st1 k = (st1, false)) ∧
    (∀ (numPages : Nat) (preloaded : Nat → Bool) (st st1 : AnalyzeState) (k : Nat),
      analyzeBatchBegin numPages st k = (st1, true) →
        k ∈ st1.processingQueue ∧ preloadBatchBegin numPages preloaded st1 k = (st1, false)) := by
  constructor
  · intro numPages preloaded st st1 k h
    simp only [preloadBatchBegin] at h
    split at h
    · exact absurd (congrArg Prod.snd h) (by simp)
    · split at h
      · exact absurd (congrArg Prod.snd h) (by simp)
      · have hst1 : st1 = { analysisCache := markNonComplete .preloaded st.analysisCache _ _,
                            processingQueue := k :: st.processingQueue } :=
          (congrArg Prod.fst h).symm
        subst hst1
        exact ⟨List.mem_cons_self _ _, analyzeBatchBegin_of_mem _ _ _ (List.mem_cons_self _ _)⟩
  · intro numPages preloaded st st1 k h
    obtain ⟨hk, rfl⟩ := analyzeBatchBegin_true_elim numPages st st1 k h
    exact ⟨List.mem_cons_self _ _, preloadBatchBegin_of_mem _ _ _ _ (List.mem_cons_self _ _)⟩

/-- Claim C10 (witness): after a vision analysis of batch 0 begins on 4 pages,
the key is in flight and a preload begin step on batch 0 is a no-op. -/
theorem shared_queue_mutual_exclusion_witness :
    0 ∈ ((analyzeBatchBegin 4 ⟨fun _ => none, []⟩ 0).1).processingQueue ∧
    preloadBatchBegin 4 (fun _ => false) (analyzeBatchBegin 4 ⟨fun _ => none, []⟩ 0).1 0 =
      ((analyzeBatchBegin 4 ⟨fun _ => none, []⟩ 0).1, false) :=
  shared_queue_mutual_exclusion.2 4 (fun _ => false) ⟨fun _ => none, []⟩ _ 0 rfl

end MangaReader
